import Mathlib

/-!
Verification of the session-relay server (`server/main.py`, `server/gemini_client.py`).

Bytes are modelled as natural numbers below 256 where produced by the code;
byte strings as `List Nat`.  Python's `struct.pack` with formats `<I` / `<H`
is modelled by `packU`, which fails (returns `none`, i.e. raises) when the
value does not fit the field width, exactly as `struct.error` is raised.
-/

/-- Little-endian byte value of a byte list (least-significant byte first). -/
def valLE (bs : List Nat) : Nat := bs.foldr (fun b acc => acc * 256 + b) 0

/-- The `k` little-endian bytes of `v` (`struct.pack` payload layout). -/
def leBytes : Nat → Nat → List Nat
  | 0, _ => []
  | k + 1, v => v % 256 :: leBytes k (v / 256)

/-- `struct.pack` for an unsigned little-endian field of `width` bytes:
raises (`none`) when the value is out of range, as CPython does. -/
def packU (width v : Nat) : Option (List Nat) :=
  if v < 2 ^ (8 * width) then some (leBytes width v) else none

/-- `b'RIFF'`. -/
def riffTag : List Nat := [82, 73, 70, 70]

/-- `b'WAVE'`. -/
def waveTag : List Nat := [87, 65, 86, 69]

/-- `b'fmt '`. -/
def fmtTag : List Nat := [102, 109, 116, 32]

/-- `b'data'`. -/
def dataTag : List Nat := [100, 97, 116, 97]

/-- `pcm_to_wav` from `server/gemini_client.py`: writes the RIFF chunk, the
`fmt ` chunk and the `data` chunk in source order.  Each `struct.pack` call
is a `packU` bind, in the order the source performs the writes. -/
def pcm_to_wav (pcm_data : List Nat) (sample_rate channels sample_width : Nat) :
    Option (List Nat) :=
  let byte_rate := sample_rate * channels * sample_width
  let block_align := channels * sample_width
  let data_size := pcm_data.length
  let file_size := 36 + data_size
  (packU 4 file_size).bind fun fs =>
  (packU 4 16).bind fun fmtLen =>
  (packU 2 1).bind fun afmt =>
  (packU 2 channels).bind fun ch =>
  (packU 4 sample_rate).bind fun sr =>
  (packU 4 byte_rate).bind fun br =>
  (packU 2 block_align).bind fun ba =>
  (packU 2 (sample_width * 8)).bind fun bps =>
  (packU 4 data_size).bind fun ds =>
  some (riffTag ++ fs ++ waveTag ++ fmtTag ++ fmtLen ++ afmt ++ ch ++ sr ++ br ++
        ba ++ bps ++ dataTag ++ ds ++ pcm_data)

/-- The 44-byte header `pcm_to_wav` produces for `n` bytes of PCM. -/
def wavHeader (n sr ch swd : Nat) : List Nat :=
  riffTag ++ leBytes 4 (36 + n) ++ waveTag ++ fmtTag ++ leBytes 4 16 ++
  leBytes 2 1 ++ leBytes 2 ch ++ leBytes 4 sr ++ leBytes 4 (sr * ch * swd) ++
  leBytes 2 (ch * swd) ++ leBytes 2 (swd * 8) ++ dataTag ++ leBytes 4 n

/-- The whole successful output of `pcm_to_wav`. -/
def wavBytes (pcm : List Nat) (sr ch swd : Nat) : List Nat :=
  wavHeader pcm.length sr ch swd ++ pcm

/-- Read `k` bytes at offset `off` as a little-endian value. -/
def readLE (bs : List Nat) (off k : Nat) : Nat := valLE ((bs.drop off).take k)

theorem leBytes_length (k : Nat) : ∀ v, (leBytes k v).length = k := by
  induction k with
  | zero => intro v; rfl
  | succ k ih => intro v; simp [leBytes, ih]

theorem valLE_leBytes (k : Nat) : ∀ v, v < 2 ^ (8 * k) → valLE (leBytes k v) = v := by
  induction k with
  | zero => intro v hv; simp [leBytes, valLE]; omega
  | succ k ih =>
    intro v hv
    have hdiv : v / 256 < 2 ^ (8 * k) := by
      have h2 : (2 : Nat) ^ (8 * (k + 1)) = 2 ^ (8 * k) * 256 := by ring
      rw [Nat.div_lt_iff_lt_mul (by norm_num : (0 : Nat) < 256)]
      omega
    have : valLE (v % 256 :: leBytes k (v / 256)) =
        valLE (leBytes k (v / 256)) * 256 + v % 256 := by simp [valLE]
    rw [leBytes, this, ih (v / 256) hdiv]
    omega

theorem wavHeader_length (n sr ch swd : Nat) : (wavHeader n sr ch swd).length = 44 := by
  simp [wavHeader, riffTag, waveTag, fmtTag, dataTag, leBytes_length]

theorem wavBytes_length (pcm : List Nat) (sr ch swd : Nat) :
    (wavBytes pcm sr ch swd).length = 44 + pcm.length := by
  simp [wavBytes, wavHeader_length]

theorem wavBytes_drop (pcm : List Nat) (sr ch swd : Nat) :
    (wavBytes pcm sr ch swd).drop 44 = pcm := by
  have h := wavHeader_length pcm.length sr ch swd
  rw [wavBytes, ← h, List.drop_left]

theorem pcm_to_wav_some_iff (pcm : List Nat) (sr ch swd : Nat) (w : List Nat) :
    pcm_to_wav pcm sr ch swd = some w ↔
      (36 + pcm.length < 2 ^ 32 ∧ ch < 2 ^ 16 ∧ sr < 2 ^ 32 ∧ sr * ch * swd < 2 ^ 32 ∧
       ch * swd < 2 ^ 16 ∧ swd * 8 < 2 ^ 16 ∧ w = wavBytes pcm sr ch swd) := by
  simp only [pcm_to_wav, packU, Option.bind_eq_some, Option.ite_none_right_eq_some,
    Option.some.injEq, wavBytes, wavHeader, List.append_assoc]
  constructor
  · rintro ⟨fs, ⟨hfs, rfl⟩, fl, ⟨hfl, rfl⟩, af, ⟨haf, rfl⟩, chb, ⟨hch, rfl⟩, srb, ⟨hsr, rfl⟩,
      brb, ⟨hbr, rfl⟩, bab, ⟨hba, rfl⟩, bpsb, ⟨hbps, rfl⟩, dsb, ⟨hds, rfl⟩, rfl⟩
    refine ⟨by norm_num at hfs ⊢; omega, by norm_num at hch ⊢; omega,
      by norm_num at hsr ⊢; omega, by norm_num at hbr ⊢; omega,
      by norm_num at hba ⊢; omega, by norm_num at hbps ⊢; omega, rfl⟩
  · rintro ⟨h1, h2, h3, h4, h5, h6, rfl⟩
    norm_num at h1 h2 h3 h4 h5 h6
    exact ⟨_, ⟨by omega, rfl⟩, _, ⟨by norm_num, rfl⟩, _, ⟨by norm_num, rfl⟩, _, ⟨by omega, rfl⟩,
      _, ⟨by omega, rfl⟩, _, ⟨by omega, rfl⟩, _, ⟨by omega, rfl⟩, _, ⟨by omega, rfl⟩,
      _, ⟨by omega, rfl⟩, rfl⟩

theorem pcm_to_wav_some_of (pcm : List Nat) (sr ch swd : Nat)
    (h1 : 36 + pcm.length < 2 ^ 32) (h2 : ch < 2 ^ 16) (h3 : sr < 2 ^ 32)
    (h4 : sr * ch * swd < 2 ^ 32) (h5 : ch * swd < 2 ^ 16) (h6 : swd * 8 < 2 ^ 16) :
    pcm_to_wav pcm sr ch swd = some (wavBytes pcm sr ch swd) :=
  (pcm_to_wav_some_iff pcm sr ch swd _).mpr ⟨h1, h2, h3, h4, h5, h6, rfl⟩

theorem readLE_split (pre mid post : List Nat) (off k : Nat)
    (hpre : pre.length = off) (hmid : mid.length = k) :
    readLE (pre ++ (mid ++ post)) off k = valLE mid := by
  subst hpre; subst hmid
  rw [readLE, List.drop_left, List.take_left]

theorem wav_field_file_size (pcm : List Nat) (sr ch swd : Nat)
    (h : 36 + pcm.length < 2 ^ 32) :
    readLE (wavBytes pcm sr ch swd) 4 4 = 36 + pcm.length := by
  have hsplit : wavBytes pcm sr ch swd =
      riffTag ++ (leBytes 4 (36 + pcm.length) ++
      (waveTag ++ fmtTag ++ leBytes 4 16 ++ leBytes 2 1 ++ leBytes 2 ch ++ leBytes 4 sr ++
       leBytes 4 (sr * ch * swd) ++ leBytes 2 (ch * swd) ++ leBytes 2 (swd * 8) ++ dataTag ++
       leBytes 4 pcm.length ++ pcm)) := by
    simp [wavBytes, wavHeader, List.append_assoc]
  rw [hsplit, readLE_split _ _ _ _ _ (by simp [riffTag]) (leBytes_length 4 _),
    valLE_leBytes 4 _ (by norm_num; omega)]

theorem wav_field_channels (pcm : List Nat) (sr ch swd : Nat) (h : ch < 2 ^ 16) :
    readLE (wavBytes pcm sr ch swd) 22 2 = ch := by
  have hsplit : wavBytes pcm sr ch swd =
      (riffTag ++ leBytes 4 (36 + pcm.length) ++ waveTag ++ fmtTag ++ leBytes 4 16 ++
       leBytes 2 1) ++ (leBytes 2 ch ++
      (leBytes 4 sr ++ leBytes 4 (sr * ch * swd) ++ leBytes 2 (ch * swd) ++
       leBytes 2 (swd * 8) ++ dataTag ++ leBytes 4 pcm.length ++ pcm)) := by
    simp [wavBytes, wavHeader, List.append_assoc]
  rw [hsplit, readLE_split _ _ _ _ _
      (by simp [riffTag, waveTag, fmtTag, leBytes_length]) (leBytes_length 2 _),
    valLE_leBytes 2 _ (by norm_num; omega)]

theorem wav_field_sample_rate (pcm : List Nat) (sr ch swd : Nat) (h : sr < 2 ^ 32) :
    readLE (wavBytes pcm sr ch swd) 24 4 = sr := by
  have hsplit : wavBytes pcm sr ch swd =
      (riffTag ++ leBytes 4 (36 + pcm.length) ++ waveTag ++ fmtTag ++ leBytes 4 16 ++
       leBytes 2 1 ++ leBytes 2 ch) ++ (leBytes 4 sr ++
      (leBytes 4 (sr * ch * swd) ++ leBytes 2 (ch * swd) ++
       leBytes 2 (swd * 8) ++ dataTag ++ leBytes 4 pcm.length ++ pcm)) := by
    simp [wavBytes, wavHeader, List.append_assoc]
  rw [hsplit, readLE_split _ _ _ _ _
      (by simp [riffTag, waveTag, fmtTag, leBytes_length]) (leBytes_length 4 _),
    valLE_leBytes 4 _ (by norm_num; omega)]

theorem wav_field_byte_rate (pcm : List Nat) (sr ch swd : Nat)
    (h : sr * ch * swd < 2 ^ 32) :
    readLE (wavBytes pcm sr ch swd) 28 4 = sr * ch * swd := by
  have hsplit : wavBytes pcm sr ch swd =
      (riffTag ++ leBytes 4 (36 + pcm.length) ++ waveTag ++ fmtTag ++ leBytes 4 16 ++
       leBytes 2 1 ++ leBytes 2 ch ++ leBytes 4 sr) ++ (leBytes 4 (sr * ch * swd) ++
      (leBytes 2 (ch * swd) ++ leBytes 2 (swd * 8) ++ dataTag ++ leBytes 4 pcm.length ++ pcm)) := by
    simp [wavBytes, wavHeader, List.append_assoc]
  rw [hsplit, readLE_split _ _ _ _ _
      (by simp [riffTag, waveTag, fmtTag, leBytes_length]) (leBytes_length 4 _),
    valLE_leBytes 4 _ (by norm_num; omega)]

theorem wav_field_block_align (pcm : List Nat) (sr ch swd : Nat) (h : ch * swd < 2 ^ 16) :
    readLE (wavBytes pcm sr ch swd) 32 2 = ch * swd := by
  have hsplit : wavBytes pcm sr ch swd =
      (riffTag ++ leBytes 4 (36 + pcm.length) ++ waveTag ++ fmtTag ++ leBytes 4 16 ++
       leBytes 2 1 ++ leBytes 2 ch ++ leBytes 4 sr ++ leBytes 4 (sr * ch * swd)) ++
      (leBytes 2 (ch * swd) ++
      (leBytes 2 (swd * 8) ++ dataTag ++ leBytes 4 pcm.length ++ pcm)) := by
    simp [wavBytes, wavHeader, List.append_assoc]
  rw [hsplit, readLE_split _ _ _ _ _
      (by simp [riffTag, waveTag, fmtTag, leBytes_length]) (leBytes_length 2 _),
    valLE_leBytes 2 _ (by norm_num; omega)]

theorem wav_field_bits_per_sample (pcm : List Nat) (sr ch swd : Nat) (h : swd * 8 < 2 ^ 16) :
    readLE (wavBytes pcm sr ch swd) 34 2 = swd * 8 := by
  have hsplit : wavBytes pcm sr ch swd =
      (riffTag ++ leBytes 4 (36 + pcm.length) ++ waveTag ++ fmtTag ++ leBytes 4 16 ++
       leBytes 2 1 ++ leBytes 2 ch ++ leBytes 4 sr ++ leBytes 4 (sr * ch * swd) ++
       leBytes 2 (ch * swd)) ++ (leBytes 2 (swd * 8) ++
      (dataTag ++ leBytes 4 pcm.length ++ pcm)) := by
    simp [wavBytes, wavHeader, List.append_assoc]
  rw [hsplit, readLE_split _ _ _ _ _
      (by simp [riffTag, waveTag, fmtTag, leBytes_length]) (leBytes_length 2 _),
    valLE_leBytes 2 _ (by norm_num; omega)]

theorem wav_field_data_size (pcm : List Nat) (sr ch swd : Nat) (h : pcm.length < 2 ^ 32) :
    readLE (wavBytes pcm sr ch swd) 40 4 = pcm.length := by
  have hsplit : wavBytes pcm sr ch swd =
      (riffTag ++ leBytes 4 (36 + pcm.length) ++ waveTag ++ fmtTag ++ leBytes 4 16 ++
       leBytes 2 1 ++ leBytes 2 ch ++ leBytes 4 sr ++ leBytes 4 (sr * ch * swd) ++
       leBytes 2 (ch * swd) ++ leBytes 2 (swd * 8) ++ dataTag) ++
      (leBytes 4 pcm.length ++ pcm) := by
    simp [wavBytes, wavHeader, List.append_assoc]
  rw [hsplit, readLE_split _ _ _ _ _
      (by simp [riffTag, waveTag, fmtTag, dataTag, leBytes_length]) (leBytes_length 4 _),
    valLE_leBytes 4 _ (by norm_num; omega)]

/-- C2: whenever `pcm_to_wav` frames `N` PCM bytes (default 24kHz/mono/16-bit
parameters), the output has length `44 + N`, its RIFF file-size field (bytes
4..7, little-endian) is `36 + N`, its data-size field (bytes 40..43) is `N`,
and the bytes from offset 44 onward are the input PCM unchanged; in particular
framing 0 bytes yields exactly a 44-byte header with data-size field 0. -/
theorem pcm_to_wav_layout (pcm : List Nat) (hfit : 36 + pcm.length < 2 ^ 32) :
    ∃ w, pcm_to_wav pcm 24000 1 2 = some w ∧
      w.length = 44 + pcm.length ∧
      readLE w 4 4 = 36 + pcm.length ∧
      readLE w 40 4 = pcm.length ∧
      w.drop 44 = pcm := by
  refine ⟨wavBytes pcm 24000 1 2,
    pcm_to_wav_some_of pcm 24000 1 2 hfit (by norm_num) (by norm_num) (by norm_num)
      (by norm_num) (by norm_num),
    wavBytes_length pcm 24000 1 2,
    wav_field_file_size pcm 24000 1 2 hfit,
    wav_field_data_size pcm 24000 1 2 (by omega),
    wavBytes_drop pcm 24000 1 2⟩

/-- Witness for C2 at the empty PCM input: a 44-byte header with file-size
field 36 and data-size field 0, and nothing after the header. -/
theorem pcm_to_wav_layout_witness :
    ∃ w, pcm_to_wav [] 24000 1 2 = some w ∧
      w.length = 44 + ([] : List Nat).length ∧
      readLE w 4 4 = 36 + ([] : List Nat).length ∧
      readLE w 40 4 = ([] : List Nat).length ∧
      w.drop 44 = ([] : List Nat) :=
  pcm_to_wav_layout [] (by norm_num)

/-- C3: for every input and format parameters, a produced header stamps the
given sample rate (bytes 24..27), the channel count (22..23), bits-per-sample
`sample_width * 8` (34..35), byte rate `sample_rate * channels * sample_width`
(28..31) and block align `channels * sample_width` (32..33). -/
theorem pcm_to_wav_header_fields (pcm : List Nat) (sr ch swd : Nat) (w : List Nat)
    (h : pcm_to_wav pcm sr ch swd = some w) :
    readLE w 24 4 = sr ∧ readLE w 22 2 = ch ∧ readLE w 34 2 = swd * 8 ∧
    readLE w 28 4 = sr * ch * swd ∧ readLE w 32 2 = ch * swd := by
  obtain ⟨h1, h2, h3, h4, h5, h6, rfl⟩ := (pcm_to_wav_some_iff pcm sr ch swd w).mp h
  exact ⟨wav_field_sample_rate pcm sr ch swd h3, wav_field_channels pcm sr ch swd h2,
    wav_field_bits_per_sample pcm sr ch swd h6, wav_field_byte_rate pcm sr ch swd h4,
    wav_field_block_align pcm sr ch swd h5⟩

/-- Witness for C3 at 8000 Hz, 2 channels, 2-byte samples. -/
theorem pcm_to_wav_header_fields_witness :
    readLE (wavBytes [5] 8000 2 2) 24 4 = 8000 ∧
    readLE (wavBytes [5] 8000 2 2) 22 2 = 2 ∧
    readLE (wavBytes [5] 8000 2 2) 34 2 = 2 * 8 ∧
    readLE (wavBytes [5] 8000 2 2) 28 4 = 8000 * 2 * 2 ∧
    readLE (wavBytes [5] 8000 2 2) 32 2 = 2 * 2 :=
  pcm_to_wav_header_fields [5] 8000 2 2 (wavBytes [5] 8000 2 2)
    (pcm_to_wav_some_of [5] 8000 2 2 (by norm_num) (by norm_num) (by norm_num)
      (by norm_num) (by norm_num) (by norm_num))

/-- C10: with the default format parameters, `pcm_to_wav` returns normally
exactly when its 32-bit size fields fit: it produces a result whenever
`len + 36 < 2^32` (i.e. `len ≤ 2^32 - 37`), and for `len + 36 ≥ 2^32` the
pack of `file_size = 36 + len` — the first field written — fails, so the
function raises instead of silently wrapping the size fields. -/
theorem pcm_to_wav_size_bound (pcm : List Nat) :
    (pcm.length + 36 < 2 ^ 32 → ∃ w, pcm_to_wav pcm 24000 1 2 = some w) ∧
    (2 ^ 32 ≤ pcm.length + 36 → pcm_to_wav pcm 24000 1 2 = none) := by
  constructor
  · intro h
    exact ⟨wavBytes pcm 24000 1 2,
      pcm_to_wav_some_of pcm 24000 1 2 (by omega) (by norm_num) (by norm_num) (by norm_num)
        (by norm_num) (by norm_num)⟩
  · intro h
    simp only [pcm_to_wav, packU]
    rw [if_neg (by norm_num; omega)]
    rfl

/-- Witness for C10: the small side at a 1-byte input, and the failing side at
an input of `2^32 - 36` bytes, where the file-size pack is out of range. -/
theorem pcm_to_wav_size_bound_witness :
    (∃ w, pcm_to_wav [0] 24000 1 2 = some w) ∧
    pcm_to_wav (List.replicate (2 ^ 32 - 36) 0) 24000 1 2 = none :=
  ⟨(pcm_to_wav_size_bound [0]).1 (by norm_num),
   (pcm_to_wav_size_bound (List.replicate (2 ^ 32 - 36) 0)).2
     (by rw [List.length_replicate]; norm_num)⟩

/-! ## The response handler of `server/main.py` (`handle_gemini_response`)

The Inbound Receive Loop translates remote events into callbacks
`("audio", bytes)`, `("text", s)`, `("turn_complete", None)`,
`("interrupted", None)`, `("error", msg)`; `handle_gemini_response` turns
each callback into websocket messages, accumulating audio in `audio_buffer`
and flushing it through `pcm_to_wav` at `BUFFER_TARGET_SIZE`. -/

/-- The callback kinds `handle_gemini_response` receives. -/
inductive GeminiEvent where
  | audio (data : List Nat)
  | text (s : String)
  | turnComplete
  | interrupted
  | error (msg : String)
deriving DecidableEq

/-- Messages sent to the client websocket.  `audioMsg w` is the
`{"type": "audio"}` message whose payload is the base64 of `w`;
`assistantSilent` is the `{"type": "assistant_silent"}` message sent at
turn completion. -/
inductive ClientMsg where
  | audioMsg (wav : List Nat)
  | transcript (s : String)
  | assistantSilent
  | interruptedMsg
  | errorMsg (msg : String)
  | sessionStarted
deriving DecidableEq

/-- `BUFFER_TARGET_SIZE = 48000` from `server/main.py`. -/
def BUFFER_TARGET_SIZE : Nat := 48000

/-- `OUTPUT_SAMPLE_RATE = 24000` from `server/main.py`. -/
def OUTPUT_SAMPLE_RATE : Nat := 24000

/-- One call of `handle_gemini_response` (connected state): takes the current
`audio_buffer` and the callback, returns the new buffer and the messages sent,
or `none` when `pcm_to_wav` raises. -/
def processEvent (buffer : List Nat) : GeminiEvent → Option (List Nat × List ClientMsg)
  | .audio data =>
      let buf := buffer ++ data
      if BUFFER_TARGET_SIZE ≤ buf.length then
        (pcm_to_wav buf OUTPUT_SAMPLE_RATE 1 2).map fun w => ([], [.audioMsg w])
      else some (buf, [])
  | .text s => some (buffer, [.transcript s])
  | .turnComplete =>
      if 0 < buffer.length then
        (pcm_to_wav buffer OUTPUT_SAMPLE_RATE 1 2).map fun w =>
          ([], [.audioMsg w, .assistantSilent])
      else some (buffer, [.assistantSilent])
  | .interrupted => some (buffer, [.interruptedMsg])
  | .error m => some (buffer, [.errorMsg m])

/-- Folding `handle_gemini_response` over a sequence of callbacks, collecting
all messages sent in order. -/
def processEvents (buffer : List Nat) : List GeminiEvent → Option (List Nat × List ClientMsg)
  | [] => some (buffer, [])
  | e :: es =>
      (processEvent buffer e).bind fun r1 =>
      (processEvents r1.1 es).bind fun r2 =>
      some (r2.1, r1.2 ++ r2.2)

/-- The PCM payload of an emitted WAV message (everything after the header). -/
def pcmPayload (w : List Nat) : List Nat := w.drop 44

/-- The raw audio bytes a callback delivers. -/
def eventAudio : GeminiEvent → List Nat
  | .audio d => d
  | _ => []

/-- All audio bytes delivered by a callback sequence, in arrival order. -/
def receivedAudio : List GeminiEvent → List Nat
  | [] => []
  | e :: es => eventAudio e ++ receivedAudio es

/-- Concatenation of the PCM payloads of the emitted `Audio` messages. -/
def audioConcat : List ClientMsg → List Nat
  | [] => []
  | .audioMsg w :: ms => pcmPayload w ++ audioConcat ms
  | .transcript _ :: ms => audioConcat ms
  | .assistantSilent :: ms => audioConcat ms
  | .interruptedMsg :: ms => audioConcat ms
  | .errorMsg _ :: ms => audioConcat ms
  | .sessionStarted :: ms => audioConcat ms

theorem audioConcat_append (xs ys : List ClientMsg) :
    audioConcat (xs ++ ys) = audioConcat xs ++ audioConcat ys := by
  induction xs with
  | nil => simp [audioConcat]
  | cons m ms ih => cases m <;> simp [audioConcat, ih, List.append_assoc]

theorem audioConcat_eq_nil (out : List ClientMsg)
    (h : ∀ w, ClientMsg.audioMsg w ∉ out) : audioConcat out = [] := by
  induction out with
  | nil => rfl
  | cons m ms ih =>
    have hms : ∀ w, ClientMsg.audioMsg w ∉ ms := fun w hw =>
      h w (List.mem_cons_of_mem _ hw)
    cases m with
    | audioMsg w => exact absurd (List.mem_cons_self _ _) (h w)
    | transcript s => simpa [audioConcat] using ih hms
    | assistantSilent => simpa [audioConcat] using ih hms
    | interruptedMsg => simpa [audioConcat] using ih hms
    | errorMsg m => simpa [audioConcat] using ih hms
    | sessionStarted => simpa [audioConcat] using ih hms

theorem processEvent_step (b : List Nat) (e : GeminiEvent) (b1 : List Nat)
    (out1 : List ClientMsg) (h : processEvent b e = some (b1, out1)) :
    audioConcat out1 ++ b1 = b ++ eventAudio e ∧
    (∀ w, ClientMsg.audioMsg w ∈ out1 → 0 < (pcmPayload w).length) ∧
    (b1.length < BUFFER_TARGET_SIZE ∨ b1 = b) := by
  cases e with
  | audio d =>
    simp only [processEvent] at h
    by_cases hth : BUFFER_TARGET_SIZE ≤ (b ++ d).length
    · rw [if_pos hth, Option.map_eq_some'] at h
      obtain ⟨w, hw, heq⟩ := h
      simp only [Prod.mk.injEq] at heq
      obtain ⟨h1, h2⟩ := heq
      subst h1; subst h2
      obtain ⟨hfit, _, _, _, _, _, rfl⟩ := (pcm_to_wav_some_iff _ _ _ _ _).mp hw
      refine ⟨by simp [audioConcat, pcmPayload, wavBytes_drop, eventAudio], ?_,
        Or.inl (by simp [BUFFER_TARGET_SIZE])⟩
      intro w' hw'
      simp only [List.mem_singleton, ClientMsg.audioMsg.injEq] at hw'
      subst hw'
      rw [pcmPayload, wavBytes_drop]
      simp only [BUFFER_TARGET_SIZE] at hth
      omega
    · rw [if_neg hth] at h
      simp only [Option.some.injEq, Prod.mk.injEq] at h
      obtain ⟨h1, h2⟩ := h
      subst h1; subst h2
      refine ⟨by simp [audioConcat, eventAudio], by intro w hw; simp at hw, Or.inl ?_⟩
      simp only [BUFFER_TARGET_SIZE] at hth ⊢
      omega
  | text s =>
    simp only [processEvent, Option.some.injEq, Prod.mk.injEq] at h
    obtain ⟨h1, h2⟩ := h
    subst h1; subst h2
    exact ⟨by simp [audioConcat, eventAudio], by intro w hw; simp [audioConcat] at hw,
      Or.inr rfl⟩
  | turnComplete =>
    simp only [processEvent] at h
    by_cases hpos : 0 < b.length
    · rw [if_pos hpos, Option.map_eq_some'] at h
      obtain ⟨w, hw, heq⟩ := h
      simp only [Prod.mk.injEq] at heq
      obtain ⟨h1, h2⟩ := heq
      subst h1; subst h2
      obtain ⟨hfit, _, _, _, _, _, rfl⟩ := (pcm_to_wav_some_iff _ _ _ _ _).mp hw
      refine ⟨by simp [audioConcat, pcmPayload, wavBytes_drop, eventAudio], ?_,
        Or.inl (by simp [BUFFER_TARGET_SIZE])⟩
      intro w' hw'
      simp only [List.mem_cons, List.mem_singleton] at hw'
      rcases hw' with heq | heq
      · simp only [ClientMsg.audioMsg.injEq] at heq
        subst heq
        rw [pcmPayload, wavBytes_drop]
        exact hpos
      · simp at heq
    · rw [if_neg hpos] at h
      simp only [Option.some.injEq, Prod.mk.injEq] at h
      obtain ⟨h1, h2⟩ := h
      subst h1; subst h2
      exact ⟨by simp [audioConcat, eventAudio], by intro w hw; simp [audioConcat] at hw,
        Or.inr rfl⟩
  | interrupted =>
    simp only [processEvent, Option.some.injEq, Prod.mk.injEq] at h
    obtain ⟨h1, h2⟩ := h
    subst h1; subst h2
    exact ⟨by simp [audioConcat, eventAudio], by intro w hw; simp [audioConcat] at hw,
      Or.inr rfl⟩
  | error m =>
    simp only [processEvent, Option.some.injEq, Prod.mk.injEq] at h
    obtain ⟨h1, h2⟩ := h
    subst h1; subst h2
    exact ⟨by simp [audioConcat, eventAudio], by intro w hw; simp [audioConcat] at hw,
      Or.inr rfl⟩

theorem processEvents_conserve (evs : List GeminiEvent) : ∀ b0 b out,
    processEvents b0 evs = some (b, out) →
    audioConcat out ++ b = b0 ++ receivedAudio evs ∧
    (∀ w, ClientMsg.audioMsg w ∈ out → 0 < (pcmPayload w).length) ∧
    (b0.length < BUFFER_TARGET_SIZE → b.length < BUFFER_TARGET_SIZE) := by
  induction evs with
  | nil =>
    intro b0 b out h
    simp only [processEvents, Option.some.injEq, Prod.mk.injEq] at h
    obtain ⟨h1, h2⟩ := h
    subst h1; subst h2
    exact ⟨by simp [audioConcat, receivedAudio], by intro w hw; simp at hw, fun h => h⟩
  | cons e es ih =>
    intro b0 b out h
    simp only [processEvents, Option.bind_eq_some] at h
    obtain ⟨⟨b1, out1⟩, h1, ⟨b2, out2⟩, h2, heq⟩ := h
    simp only [Option.some.injEq, Prod.mk.injEq] at heq
    obtain ⟨hb, hout⟩ := heq
    subst hb; subst hout
    obtain ⟨hc1, hne1, hinv1⟩ := processEvent_step b0 e b1 out1 h1
    obtain ⟨hc2, hne2, hinv2⟩ := ih b1 b2 out2 h2
    refine ⟨?_, ?_, ?_⟩
    · calc audioConcat (out1 ++ out2) ++ b2
          = audioConcat out1 ++ (audioConcat out2 ++ b2) := by
            rw [audioConcat_append, List.append_assoc]
        _ = audioConcat out1 ++ (b1 ++ receivedAudio es) := by rw [hc2]
        _ = (audioConcat out1 ++ b1) ++ receivedAudio es := by rw [List.append_assoc]
        _ = (b0 ++ eventAudio e) ++ receivedAudio es := by rw [hc1]
        _ = b0 ++ receivedAudio (e :: es) := by
            rw [receivedAudio, List.append_assoc]
    · intro w hw
      rcases List.mem_append.mp hw with hmem | hmem
      · exact hne1 w hmem
      · exact hne2 w hmem
    · intro hb0
      apply hinv2
      rcases hinv1 with hlt | hEq
      · exact hlt
      · rw [hEq]; exact hb0

theorem processEvent_total (b : List Nat) (e : GeminiEvent)
    (hfit : b.length + (eventAudio e).length + 36 < 2 ^ 32) :
    ∃ b1 out1, processEvent b e = some (b1, out1) ∧
      b1.length ≤ b.length + (eventAudio e).length := by
  cases e with
  | audio d =>
    simp only [eventAudio] at hfit
    simp only [processEvent]
    by_cases hth : BUFFER_TARGET_SIZE ≤ (b ++ d).length
    · rw [if_pos hth]
      have hw := pcm_to_wav_some_of (b ++ d) OUTPUT_SAMPLE_RATE 1 2
        (by simp only [List.length_append]; norm_num; omega) (by norm_num)
        (by norm_num [OUTPUT_SAMPLE_RATE]) (by norm_num [OUTPUT_SAMPLE_RATE])
        (by norm_num) (by norm_num)
      rw [hw]
      exact ⟨[], _, rfl, by simp [eventAudio]⟩
    · rw [if_neg hth]
      exact ⟨b ++ d, [], rfl, by simp [eventAudio]⟩
  | text s => exact ⟨b, [ClientMsg.transcript s], rfl, by simp [eventAudio]⟩
  | turnComplete =>
    simp only [eventAudio] at hfit
    simp only [processEvent]
    by_cases hpos : 0 < b.length
    · rw [if_pos hpos]
      have hw := pcm_to_wav_some_of b OUTPUT_SAMPLE_RATE 1 2
        (by norm_num; omega) (by norm_num) (by norm_num [OUTPUT_SAMPLE_RATE])
        (by norm_num [OUTPUT_SAMPLE_RATE]) (by norm_num) (by norm_num)
      rw [hw]
      exact ⟨[], _, rfl, by simp [eventAudio]⟩
    · rw [if_neg hpos]
      exact ⟨b, [ClientMsg.assistantSilent], rfl, by simp [eventAudio]⟩
  | interrupted => exact ⟨b, [ClientMsg.interruptedMsg], rfl, by simp [eventAudio]⟩
  | error m => exact ⟨b, [ClientMsg.errorMsg m], rfl, by simp [eventAudio]⟩

theorem processEvents_total (evs : List GeminiEvent) : ∀ b0 : List Nat,
    b0.length + (receivedAudio evs).length + 36 < 2 ^ 32 →
    ∃ b out, processEvents b0 evs = some (b, out) := by
  induction evs with
  | nil => intro b0 _; exact ⟨b0, [], rfl⟩
  | cons e es ih =>
    intro b0 hfit
    simp only [receivedAudio, List.length_append] at hfit
    obtain ⟨b1, out1, h1, hle⟩ := processEvent_total b0 e (by omega)
    obtain ⟨b2, out2, h2⟩ := ih b1 (by omega)
    exact ⟨b2, out1 ++ out2, by simp [processEvents, h1, h2]⟩

theorem processEvents_snoc (evs : List GeminiEvent) (e : GeminiEvent) :
    ∀ b0 b : List Nat, ∀ out : List ClientMsg,
    processEvents b0 evs = some (b, out) →
    processEvents b0 (evs ++ [e]) =
      (processEvent b e).map fun r => (r.1, out ++ r.2) := by
  induction evs with
  | nil =>
    intro b0 b out h
    simp only [processEvents, Option.some.injEq, Prod.mk.injEq] at h
    obtain ⟨h1, h2⟩ := h
    subst h1; subst h2
    cases hpe : processEvent b0 e with
    | none => simp [processEvents, hpe]
    | some r => simp [processEvents, hpe]
  | cons ev es ih =>
    intro b0 b out h
    simp only [processEvents, Option.bind_eq_some] at h
    obtain ⟨⟨b1, o1⟩, h1, ⟨b2, o2⟩, h2, heq⟩ := h
    simp only [Option.some.injEq, Prod.mk.injEq] at heq
    obtain ⟨hb, hout⟩ := heq
    subst hb; subst hout
    simp only [List.cons_append, processEvents, h1, Option.some_bind, List.append_eq]
    rw [ih b1 b2 o2 h2]
    cases processEvent b2 e <;> simp [List.append_assoc]

theorem receivedAudio_map_audio (datas : List (List Nat)) :
    (receivedAudio (datas.map GeminiEvent.audio)).length = (datas.map List.length).sum := by
  induction datas with
  | nil => rfl
  | cons d ds ih => simp [receivedAudio, eventAudio, ih]

/-- C9: audio-byte conservation of the response handler.  For any processed
callback sequence of audio and turn-complete events, the concatenation of the
PCM payloads of all emitted Audio messages followed by the remaining buffer
equals the initial buffer followed by all audio bytes received, in arrival
order — no byte lost, duplicated or reordered; every emitted Audio message
carries at least one PCM byte; and every threshold-triggered flush (an Audio
message emitted while handling an audio event) carries at least
`BUFFER_TARGET_SIZE` PCM bytes. -/
theorem handler_conservation (b0 b : List Nat) (evs : List GeminiEvent)
    (out : List ClientMsg) (hok : processEvents b0 evs = some (b, out))
    (_hkinds : ∀ e ∈ evs, e = GeminiEvent.turnComplete ∨ ∃ d, e = GeminiEvent.audio d) :
    audioConcat out ++ b = b0 ++ receivedAudio evs ∧
    (∀ w, ClientMsg.audioMsg w ∈ out → 0 < (pcmPayload w).length) ∧
    (∀ st d st2 out2 w, processEvent st (GeminiEvent.audio d) = some (st2, out2) →
      ClientMsg.audioMsg w ∈ out2 → BUFFER_TARGET_SIZE ≤ (pcmPayload w).length) := by
  obtain ⟨hc, hne, _⟩ := processEvents_conserve evs b0 b out hok
  refine ⟨hc, hne, ?_⟩
  intro st d st2 out2 w h hw
  simp only [processEvent] at h
  by_cases hth : BUFFER_TARGET_SIZE ≤ (st ++ d).length
  · rw [if_pos hth, Option.map_eq_some'] at h
    obtain ⟨w', hw', heq⟩ := h
    simp only [Prod.mk.injEq] at heq
    obtain ⟨h1, h2⟩ := heq
    subst h1; subst h2
    simp only [List.mem_singleton, ClientMsg.audioMsg.injEq] at hw
    subst hw
    obtain ⟨_, _, _, _, _, _, rfl⟩ := (pcm_to_wav_some_iff _ _ _ _ _).mp hw'
    rw [pcmPayload, wavBytes_drop]
    exact hth
  · rw [if_neg hth] at h
    simp only [Option.some.injEq, Prod.mk.injEq] at h
    obtain ⟨h1, h2⟩ := h
    subst h1; subst h2
    simp at hw

/-- Witness for C9, on the trace audio [1]; turn-complete, starting from an
empty buffer: one residual flush of exactly one byte, then silence. -/
theorem handler_conservation_witness :
    audioConcat [ClientMsg.audioMsg (wavBytes [1] OUTPUT_SAMPLE_RATE 1 2),
        ClientMsg.assistantSilent] ++ [] =
      [] ++ receivedAudio [GeminiEvent.audio [1], GeminiEvent.turnComplete] ∧
    (∀ w, ClientMsg.audioMsg w ∈ [ClientMsg.audioMsg (wavBytes [1] OUTPUT_SAMPLE_RATE 1 2),
        ClientMsg.assistantSilent] → 0 < (pcmPayload w).length) ∧
    (∀ st d st2 out2 w, processEvent st (GeminiEvent.audio d) = some (st2, out2) →
      ClientMsg.audioMsg w ∈ out2 → BUFFER_TARGET_SIZE ≤ (pcmPayload w).length) :=
  handler_conservation [] [] [GeminiEvent.audio [1], GeminiEvent.turnComplete]
    [ClientMsg.audioMsg (wavBytes [1] OUTPUT_SAMPLE_RATE 1 2), ClientMsg.assistantSilent]
    (by decide)
    (by
      rintro e he
      rcases List.mem_cons.mp he with rfl | he2
      · exact Or.inr ⟨[1], rfl⟩
      · rcases List.mem_singleton.mp he2 with rfl
        exact Or.inl rfl)

/-- C1: starting from an empty buffer, if the audio events before a
turn-complete deliver at least `BUFFER_TARGET_SIZE` bytes in total, then the
handler has emitted at least one Audio message before the turn-complete is
processed; processing the turn-complete appends the residual flush (exactly
the unflushed remainder, when the buffer is non-empty) followed by the
`assistant_silent` notification, and leaves the buffer empty. -/
theorem flush_before_turn_complete (datas : List (List Nat))
    (hbig : BUFFER_TARGET_SIZE ≤ (datas.map List.length).sum)
    (hfit : (datas.map List.length).sum + 36 < 2 ^ 32) :
    ∃ b outA, processEvents [] (datas.map GeminiEvent.audio) = some (b, outA) ∧
      (∃ w, ClientMsg.audioMsg w ∈ outA) ∧
      ((b = [] ∧
        processEvents [] (datas.map GeminiEvent.audio ++ [GeminiEvent.turnComplete]) =
          some ([], outA ++ [ClientMsg.assistantSilent])) ∨
       (b ≠ [] ∧ ∃ w, pcmPayload w = b ∧
        processEvents [] (datas.map GeminiEvent.audio ++ [GeminiEvent.turnComplete]) =
          some ([], outA ++ [ClientMsg.audioMsg w, ClientMsg.assistantSilent]))) := by
  have hlen := receivedAudio_map_audio datas
  obtain ⟨b, outA, hA⟩ := processEvents_total (datas.map GeminiEvent.audio) []
    (by simp only [List.length_nil]; omega)
  obtain ⟨hc, hne, hinv⟩ := processEvents_conserve _ [] b outA hA
  have hbsmall : b.length < BUFFER_TARGET_SIZE := hinv (by simp [BUFFER_TARGET_SIZE])
  have hsnoc := processEvents_snoc (datas.map GeminiEvent.audio) GeminiEvent.turnComplete
    [] b outA hA
  refine ⟨b, outA, hA, ?_, ?_⟩
  · by_contra hno
    push_neg at hno
    have hnil := audioConcat_eq_nil outA hno
    rw [hnil, List.nil_append, List.nil_append] at hc
    have : b.length = (datas.map List.length).sum := by rw [hc, hlen]
    simp only [BUFFER_TARGET_SIZE] at hbsmall hbig
    omega
  · by_cases hb : b = []
    · subst hb
      left
      refine ⟨rfl, ?_⟩
      rw [hsnoc]
      rw [show processEvent [] GeminiEvent.turnComplete =
        some ([], [ClientMsg.assistantSilent]) from rfl]
      rfl
    · right
      have hpos : 0 < b.length := List.length_pos.mpr hb
      have hw := pcm_to_wav_some_of b OUTPUT_SAMPLE_RATE 1 2
        (by simp only [BUFFER_TARGET_SIZE] at hbsmall; norm_num; omega) (by norm_num)
        (by norm_num [OUTPUT_SAMPLE_RATE]) (by norm_num [OUTPUT_SAMPLE_RATE])
        (by norm_num) (by norm_num)
      refine ⟨hb, wavBytes b OUTPUT_SAMPLE_RATE 1 2,
        by rw [pcmPayload, wavBytes_drop], ?_⟩
      rw [hsnoc]
      simp only [processEvent, if_pos hpos, hw]
      rfl

/-- Witness for C1: a single 48000-byte audio chunk followed by turn-complete,
which forces a threshold flush before the turn-complete notification. -/
theorem flush_before_turn_complete_witness :
    ∃ b outA, processEvents []
        ([List.replicate 48000 0].map GeminiEvent.audio) = some (b, outA) ∧
      (∃ w, ClientMsg.audioMsg w ∈ outA) ∧
      ((b = [] ∧
        processEvents []
            ([List.replicate 48000 0].map GeminiEvent.audio ++ [GeminiEvent.turnComplete]) =
          some ([], outA ++ [ClientMsg.assistantSilent])) ∨
       (b ≠ [] ∧ ∃ w, pcmPayload w = b ∧
        processEvents []
            ([List.replicate 48000 0].map GeminiEvent.audio ++ [GeminiEvent.turnComplete]) =
          some ([], outA ++ [ClientMsg.audioMsg w, ClientMsg.assistantSilent]))) :=
  flush_before_turn_complete [List.replicate 48000 0]
    (by
      rw [List.map_cons, List.map_nil, List.length_replicate, List.sum_cons, List.sum_nil]
      norm_num [BUFFER_TARGET_SIZE])
    (by
      rw [List.map_cons, List.map_nil, List.length_replicate, List.sum_cons, List.sum_nil]
      norm_num)

theorem processEvents_cons (b0 : List Nat) (e : GeminiEvent) (es : List GeminiEvent)
    (b1 b2 : List Nat) (out1 out2 : List ClientMsg)
    (h1 : processEvent b0 e = some (b1, out1))
    (h2 : processEvents b1 es = some (b2, out2)) :
    processEvents b0 (e :: es) = some (b2, out1 ++ out2) := by
  simp [processEvents, h1, h2]

/-- C4 counterexample to the claim as stated: the handler does NOT discard the
playback buffer on an interruption.  Byte 7, buffered before the interruption,
reappears as the first PCM byte of the Audio emission after it. -/
theorem interrupted_buffer_leaks :
    ∃ w, processEvents [] [GeminiEvent.audio [7], GeminiEvent.interrupted,
        GeminiEvent.audio (List.replicate 47999 0), GeminiEvent.turnComplete] =
      some ([], [ClientMsg.interruptedMsg, ClientMsg.audioMsg w,
        ClientMsg.assistantSilent]) ∧
      pcmPayload w = 7 :: List.replicate 47999 0 := by
  refine ⟨wavBytes ([7] ++ List.replicate 47999 0) OUTPUT_SAMPLE_RATE 1 2, ?_, ?_⟩
  · have h1 : processEvent [] (GeminiEvent.audio [7]) = some ([7], []) := by
      simp only [processEvent, List.nil_append]
      rw [if_neg (by norm_num [BUFFER_TARGET_SIZE])]
    have hw := pcm_to_wav_some_of ([7] ++ List.replicate 47999 0) OUTPUT_SAMPLE_RATE 1 2
      (by rw [List.length_append, List.length_replicate]; norm_num) (by norm_num)
      (by norm_num [OUTPUT_SAMPLE_RATE]) (by norm_num [OUTPUT_SAMPLE_RATE])
      (by norm_num) (by norm_num)
    have h2 : processEvent [7] GeminiEvent.interrupted =
        some ([7], [ClientMsg.interruptedMsg]) := rfl
    have h3 : processEvent [7] (GeminiEvent.audio (List.replicate 47999 0)) =
        some ([], [ClientMsg.audioMsg
          (wavBytes ([7] ++ List.replicate 47999 0) OUTPUT_SAMPLE_RATE 1 2)]) := by
      simp only [processEvent]
      rw [if_pos (by
        rw [List.length_append, List.length_replicate]
        norm_num [BUFFER_TARGET_SIZE]), hw]
      rfl
    have h4 : processEvent [] GeminiEvent.turnComplete =
        some ([], [ClientMsg.assistantSilent]) := rfl
    have s4 : processEvents ([] : List Nat) [] =
        some (([] : List Nat), ([] : List ClientMsg)) := rfl
    have s3 := processEvents_cons [] GeminiEvent.turnComplete [] [] [] _ _ h4 s4
    have s2 := processEvents_cons [7] (GeminiEvent.audio (List.replicate 47999 0))
      [GeminiEvent.turnComplete] [] [] _ _ h3 s3
    have s1 := processEvents_cons [7] GeminiEvent.interrupted _ [7] [] _ _ h2 s2
    exact processEvents_cons [] (GeminiEvent.audio [7]) _ [7] [] _ _ h1 s1
  · rw [pcmPayload, wavBytes_drop, List.singleton_append]

/-- C4 (amended): on an interruption the handler emits the Interrupted relay
event but leaves the playback buffer unchanged (the code never clears it on
`"interrupted"`), so bytes buffered before the interruption are carried into
the next threshold-crossing flush together with the new audio. -/
theorem interrupted_keeps_buffer (b d : List Nat)
    (hth : BUFFER_TARGET_SIZE ≤ b.length + d.length)
    (hfit : b.length + d.length + 36 < 2 ^ 32) :
    processEvent b GeminiEvent.interrupted = some (b, [ClientMsg.interruptedMsg]) ∧
    ∃ w, processEvent b (GeminiEvent.audio d) = some ([], [ClientMsg.audioMsg w]) ∧
      pcmPayload w = b ++ d := by
  refine ⟨rfl, wavBytes (b ++ d) OUTPUT_SAMPLE_RATE 1 2, ?_,
    by rw [pcmPayload, wavBytes_drop]⟩
  have hw := pcm_to_wav_some_of (b ++ d) OUTPUT_SAMPLE_RATE 1 2
    (by simp only [List.length_append]; norm_num; omega) (by norm_num)
    (by norm_num [OUTPUT_SAMPLE_RATE]) (by norm_num [OUTPUT_SAMPLE_RATE])
    (by norm_num) (by norm_num)
  simp only [processEvent]
  rw [if_pos (by rw [List.length_append]; exact hth), hw]
  rfl

/-- Witness for C4's amended statement at buffer `[1]` and a 47999-byte chunk:
the interruption leaves the byte in place and the next flush carries it. -/
theorem interrupted_keeps_buffer_witness :
    processEvent [1] GeminiEvent.interrupted = some ([1], [ClientMsg.interruptedMsg]) ∧
    ∃ w, processEvent [1] (GeminiEvent.audio (List.replicate 47999 0)) =
        some ([], [ClientMsg.audioMsg w]) ∧
      pcmPayload w = [1] ++ List.replicate 47999 0 :=
  interrupted_keeps_buffer [1] (List.replicate 47999 0)
    (by rw [List.length_replicate]; norm_num [BUFFER_TARGET_SIZE])
    (by rw [List.length_replicate]; norm_num)

/-! ## The loops and coordinator (`gemini_client.py`) and the endpoint (`main.py`) -/

/-- Whether `needle` is an initial segment of `hay`. -/
def leadsWith : List Char → List Char → Bool
  | [], _ => true
  | _ :: _, [] => false
  | a :: as, b :: bs => a == b && leadsWith as bs

/-- Whether `needle` occurs inside `hay` (Python's `needle in hay`). -/
def containsSub (needle : List Char) : List Char → Bool
  | [] => needle.isEmpty
  | c :: t => leadsWith needle (c :: t) || containsSub needle t

/-- Python's substring test `needle in hay` on strings. -/
def strContains (hay needle : String) : Bool := containsSub needle.data hay.data

/-- The characters of `s.lower()` (ASCII lowering, as `str.lower` acts on the
ASCII error signatures compared here). -/
def lowerChars (s : String) : List Char := s.data.map Char.toLower

/-- The connection-closed error signature both loops test:
`"1008" in error_str or "ConnectionClosed" in error_str`. -/
def isConnClosed (s : String) : Bool :=
  strContains s "1008" || strContains s "ConnectionClosed"

/-- Log levels used by the `log` helper and `send_log`. -/
inductive LogLevel where
  | info
  | warn
  | error
deriving DecidableEq

/-- Observable effects of a loop iteration: a call of the `log` helper
(print + `log_callback`, reaching the client as a `server_log` message), or a
call of `response_callback` (reaching the client through
`handle_gemini_response`, which is the only producer of relay events). -/
inductive LoopEffect where
  | logCallback (msg : String) (level : LogLevel)
  | responseCallback (e : GeminiEvent)
deriving DecidableEq

/-- How a loop iteration ends: leave the loop, go to the next iteration, or
sleep briefly and retry (receive loop only). -/
inductive LoopAction where
  | exitLoop
  | nextIter
  | retryAfterSleep
deriving DecidableEq

/-- Outcome of `session.send` for a dequeued chunk. -/
inductive SendResult where
  | ok
  | cancelled
  | errorMsg (s : String)
deriving DecidableEq

/-- Result of one `send_audio_task` iteration. -/
structure SendStepOut where
  action : LoopAction
  shutdown : Bool
  queue : List (Option (List Nat))
  effects : List LoopEffect
deriving DecidableEq

/-- One iteration of `send_audio_task`: check the shutdown signal at the loop
head; an empty queue models the 0.5 s `wait_for` timeout (`continue`); a
dequeued `none` is the Python `None` sentinel (`break`); otherwise the chunk
is sent with outcome `sr` — a `CancelledError` breaks, an error with the
connection-closed signature logs, sets the shutdown signal and breaks, and any
other error is logged and the loop continues with the chunk dropped. -/
def sendAudioStep (shutdown : Bool) (queue : List (Option (List Nat)))
    (sr : SendResult) : SendStepOut :=
  if shutdown then ⟨.exitLoop, shutdown, queue, []⟩
  else
    match queue with
    | [] => ⟨.nextIter, shutdown, [], []⟩
    | none :: rest => ⟨.exitLoop, shutdown, rest, []⟩
    | some _ :: rest =>
      match sr with
      | .ok => ⟨.nextIter, shutdown, rest, []⟩
      | .cancelled => ⟨.exitLoop, shutdown, rest, []⟩
      | .errorMsg m =>
          if isConnClosed m then
            ⟨.exitLoop, true, rest, [.logCallback "❌ Gemini connection closed" .error]⟩
          else
            ⟨.nextIter, shutdown, rest,
             [.logCallback ("❌ Error sending audio: " ++ m) .error]⟩

/-- Result of the receive loop's inner error handler. -/
structure RecvErrOut where
  action : LoopAction
  shutdown : Bool
  effects : List LoopEffect
deriving DecidableEq

/-- The `except Exception` handler inside `receive_responses_task`'s retry
loop, on an error whose string is `m`: a cancellation marker breaks silently;
the connection-closed signature logs, sets the shutdown signal and breaks;
anything else logs a warning and retries after a 0.5 s sleep. -/
def receiveErrStep (shutdown : Bool) (m : String) : RecvErrOut :=
  if containsSub "cancelled".data (lowerChars m) then ⟨.exitLoop, shutdown, []⟩
  else if isConnClosed m then
    ⟨.exitLoop, true, [.logCallback "❌ Gemini connection lost" .error]⟩
  else
    ⟨.retryAfterSleep, shutdown, [.logCallback ("⚠️ Receive error: " ++ m) .warn]⟩

/-- Number of `response_callback("error", ...)` calls among some effects — the
calls the handler forwards to the sink as `Error` relay events. -/
def countErrorCallbacks (effs : List LoopEffect) : Nat :=
  (effs.filter fun eff =>
    match eff with
    | .responseCallback (.error _) => true
    | _ => false).length

/-- The two supervised tasks. -/
inductive TaskId where
  | send
  | recv
deriving DecidableEq

/-- Coordinator actions, in the order `run_gemini_session` performs them. -/
inductive CoordAction where
  | observeFault
  | setShutdown
  | cancelTask (t : TaskId)
  | awaitSwallow (t : TaskId)
  | closeRemote
deriving DecidableEq

/-- How the coordinator's supervision wait loop ended. -/
inductive ExitPath where
  | normalCompletion
  | externalShutdown
  | internalFault
  | cancelledOutside
deriving DecidableEq

/-- The `finally` block of `run_gemini_session` followed by the `async with`
exit: set the shutdown signal, cancel both tasks, await both swallowing
`CancelledError`, close the remote connection. -/
def teardownSeq : List CoordAction :=
  [.setShutdown, .cancelTask .send, .cancelTask .recv,
   .awaitSwallow .send, .awaitSwallow .recv, .closeRemote]

/-- The coordinator's actions from the end of its supervision wait loop: a
task fault is observed and sets the shutdown signal inside the loop before the
break; an external shutdown, normal completion of both tasks, or an outer
`CancelledError` (swallowed) go straight to the `finally` block.  Every path
ends with `teardownSeq`. -/
def coordinatorRun : ExitPath → List CoordAction
  | .internalFault => .observeFault :: .setShutdown :: teardownSeq
  | _ => teardownSeq

/-- `asyncio.Event.set`: sets the flag, regardless of its previous value. -/
def eventSet (_ : Bool) : Bool := true

/-- Effect of one coordinator action on the shutdown flag: only
`setShutdown` writes it, and only through `eventSet`. -/
def applyShutdown (s : Bool) : CoordAction → Bool
  | .setShutdown => eventSet s
  | _ => s

/-- The shutdown flag after a sequence of coordinator actions. -/
def shutdownAfter (s : Bool) (as : List CoordAction) : Bool :=
  as.foldl applyShutdown s

/-- The observable actions at the start of `websocket_endpoint`. -/
inductive EndpointAction where
  | acceptClient
  | sendClient (m : ClientMsg)
  | closeClient (code : Nat) (reason : String)
  | createQueue
  | createGeminiTask
  | enterMessageLoop
deriving DecidableEq

/-- The start of `websocket_endpoint`: accept, then — because
`GEMINI_API_KEY = os.getenv("GEMINI_API_KEY", "")` makes an absent credential
the empty string and `if not GEMINI_API_KEY` tests its falsiness — either
refuse with an error message and `close(code=1011)`, or create the queue and
the Gemini task, announce the session and enter the message loop. -/
def websocketStart (apiKey : String) : List EndpointAction :=
  EndpointAction.acceptClient ::
    (if apiKey = "" then
      [.sendClient (.errorMsg "GEMINI_API_KEY not configured on server"),
       .closeClient 1011 "API key not configured"]
    else
      [.createQueue, .createGeminiTask, .sendClient .sessionStarted,
       .enterMessageLoop])

/-- C6: with the credential absent at session start, the endpoint sends the
configuration-error notification, closes the client connection (code 1011),
and never creates the ingress queue, never starts the Gemini session task and
never enters the message loop — so no remote connection and no retry. -/
theorem missing_api_key_refuses :
    websocketStart "" =
      [EndpointAction.acceptClient,
       EndpointAction.sendClient
         (ClientMsg.errorMsg "GEMINI_API_KEY not configured on server"),
       EndpointAction.closeClient 1011 "API key not configured"] ∧
    EndpointAction.createGeminiTask ∉ websocketStart "" ∧
    EndpointAction.createQueue ∉ websocketStart "" ∧
    EndpointAction.enterMessageLoop ∉ websocketStart "" := by
  refine ⟨rfl, ?_, ?_, ?_⟩ <;> decide

/-- C7: the per-iteration policy of the Outbound Send Loop: with the shutdown
signal set the loop exits at its head; a queue-wait timeout leads to the next
iteration, re-checking the signal; the `None` sentinel terminates the loop
cleanly; a send error with the connection-closed signature sets the shutdown
signal and terminates; any other send error is logged and the loop continues,
the failing chunk being dequeued and never re-enqueued. -/
theorem send_loop_step_policy :
    (∀ q sr, sendAudioStep true q sr =
      ⟨LoopAction.exitLoop, true, q, []⟩) ∧
    (∀ sr, sendAudioStep false [] sr =
      ⟨LoopAction.nextIter, false, [], []⟩) ∧
    (∀ rest sr, sendAudioStep false (none :: rest) sr =
      ⟨LoopAction.exitLoop, false, rest, []⟩) ∧
    (∀ d rest m, isConnClosed m = true →
      sendAudioStep false (some d :: rest) (SendResult.errorMsg m) =
        ⟨LoopAction.exitLoop, true, rest,
         [.logCallback "❌ Gemini connection closed" .error]⟩) ∧
    (∀ d rest m, isConnClosed m = false →
      sendAudioStep false (some d :: rest) (SendResult.errorMsg m) =
        ⟨LoopAction.nextIter, false, rest,
         [.logCallback ("❌ Error sending audio: " ++ m) .error]⟩) := by
  refine ⟨fun q sr => rfl, fun sr => rfl, fun rest sr => rfl, ?_, ?_⟩
  · intro d rest m h
    simp [sendAudioStep, h]
  · intro d rest m h
    simp [sendAudioStep, h]

/-- Witness for C7 at a fatal and a transient error string. -/
theorem send_loop_step_policy_witness :
    sendAudioStep false [some [1]] (SendResult.errorMsg "ConnectionClosed 1008") =
      ⟨LoopAction.exitLoop, true, [],
       [.logCallback "❌ Gemini connection closed" .error]⟩ ∧
    sendAudioStep false [some [1]] (SendResult.errorMsg "boom") =
      ⟨LoopAction.nextIter, false, [],
       [.logCallback "❌ Error sending audio: boom" .error]⟩ :=
  ⟨send_loop_step_policy.2.2.2.1 [1] [] "ConnectionClosed 1008" (by decide),
   send_loop_step_policy.2.2.2.2 [1] [] "boom" (by decide)⟩

/-- C5 counterexample to the claim as stated: on a connection-closed-signature
error the loops set the shutdown signal and terminate, but surface the
condition with an error-level log (`server_log` message) and make zero
`response_callback("error", ...)` calls — so no Error relay event (let alone
exactly one) reaches the downstream sink for the condition. -/
theorem conn_closed_no_error_event :
    isConnClosed "ConnectionClosed" = true ∧
    (sendAudioStep false [some [0]] (SendResult.errorMsg "ConnectionClosed")).shutdown
      = true ∧
    countErrorCallbacks
      (sendAudioStep false [some [0]] (SendResult.errorMsg "ConnectionClosed")).effects
      = 0 ∧
    (receiveErrStep false "ConnectionClosed").shutdown = true ∧
    countErrorCallbacks (receiveErrStep false "ConnectionClosed").effects = 0 := by
  decide

/-- C5 (amended): when an error with the connection-closed signature is
detected in either loop, the shutdown signal becomes set and the loop
terminates, triggering the coordinator's teardown; the condition is surfaced
to the downstream sink as one error-level `server_log` notification, and not
as an Error relay event; once the shutdown signal is set, a loop iteration
emits nothing further. -/
theorem conn_closed_sets_shutdown_logs (m : String) (d : List Nat)
    (rest q : List (Option (List Nat))) (sr : SendResult)
    (hcc : isConnClosed m = true) :
    (sendAudioStep false (some d :: rest) (SendResult.errorMsg m)).shutdown = true ∧
    (sendAudioStep false (some d :: rest) (SendResult.errorMsg m)).action
      = LoopAction.exitLoop ∧
    (sendAudioStep false (some d :: rest) (SendResult.errorMsg m)).effects =
      [.logCallback "❌ Gemini connection closed" .error] ∧
    countErrorCallbacks
      (sendAudioStep false (some d :: rest) (SendResult.errorMsg m)).effects = 0 ∧
    (containsSub "cancelled".data (lowerChars m) = false →
      (receiveErrStep false m).shutdown = true ∧
      (receiveErrStep false m).action = LoopAction.exitLoop ∧
      (receiveErrStep false m).effects =
        [.logCallback "❌ Gemini connection lost" .error] ∧
      countErrorCallbacks (receiveErrStep false m).effects = 0) ∧
    (sendAudioStep true q sr).effects = [] := by
  refine ⟨?_, ?_, ?_, ?_, ?_, rfl⟩
  · simp [sendAudioStep, hcc]
  · simp [sendAudioStep, hcc]
  · simp [sendAudioStep, hcc]
  · simp [sendAudioStep, hcc, countErrorCallbacks]
  · intro hnc
    refine ⟨?_, ?_, ?_, ?_⟩ <;> simp [receiveErrStep, hcc, hnc, countErrorCallbacks]

/-- Witness for C5's amended statement at the error string
`"ConnectionClosed"`. -/
theorem conn_closed_sets_shutdown_logs_witness :
    (sendAudioStep false (some [0] :: [])
      (SendResult.errorMsg "ConnectionClosed")).shutdown = true ∧
    (sendAudioStep false (some [0] :: [])
      (SendResult.errorMsg "ConnectionClosed")).action = LoopAction.exitLoop ∧
    (sendAudioStep false (some [0] :: [])
      (SendResult.errorMsg "ConnectionClosed")).effects =
      [.logCallback "❌ Gemini connection closed" .error] ∧
    countErrorCallbacks (sendAudioStep false (some [0] :: [])
      (SendResult.errorMsg "ConnectionClosed")).effects = 0 ∧
    (containsSub "cancelled".data (lowerChars "ConnectionClosed") = false →
      (receiveErrStep false "ConnectionClosed").shutdown = true ∧
      (receiveErrStep false "ConnectionClosed").action = LoopAction.exitLoop ∧
      (receiveErrStep false "ConnectionClosed").effects =
        [.logCallback "❌ Gemini connection lost" .error] ∧
      countErrorCallbacks (receiveErrStep false "ConnectionClosed").effects = 0) ∧
    (sendAudioStep true [] SendResult.ok).effects = [] :=
  conn_closed_sets_shutdown_logs "ConnectionClosed" [0] [] [] SendResult.ok (by decide)

/-- C8: the shutdown signal is edge-triggered — setting it is idempotent and
no step of either loop or of the coordinator ever unsets it — and the
coordinator's teardown sequence (set shutdown, cancel both tasks, await both
swallowing cancellation, close the remote connection) runs as the tail of
every exit path: normal completion, external shutdown, internal fault, or
outer cancellation; after any exit path the shutdown flag is set. -/
theorem shutdown_edge_triggered_teardown :
    (∀ p, List.IsSuffix teardownSeq (coordinatorRun p)) ∧
    (∀ p s, shutdownAfter s (coordinatorRun p) = true) ∧
    (∀ s a, s = true → applyShutdown s a = true) ∧
    (∀ q sr s, s = true → (sendAudioStep s q sr).shutdown = true) ∧
    (∀ s m, s = true → (receiveErrStep s m).shutdown = true) ∧
    (∀ s, eventSet (eventSet s) = eventSet s) := by
  refine ⟨?_, ?_, ?_, ?_, ?_, fun s => rfl⟩
  · intro p
    cases p with
    | internalFault => exact ⟨[CoordAction.observeFault, CoordAction.setShutdown], rfl⟩
    | normalCompletion => exact ⟨[], rfl⟩
    | externalShutdown => exact ⟨[], rfl⟩
    | cancelledOutside => exact ⟨[], rfl⟩
  · intro p s
    cases p <;> rfl
  · intro s a h
    subst h
    cases a <;> rfl
  · intro q sr s h
    subst h
    rfl
  · intro s m h
    subst h
    simp only [receiveErrStep]
    split
    · rfl
    · split
      · rfl
      · rfl

/-- Witness for C8's conditional conjuncts, with the flag already set. -/
theorem shutdown_edge_triggered_teardown_witness :
    (sendAudioStep true [] SendResult.cancelled).shutdown = true ∧
    (receiveErrStep true "boom").shutdown = true ∧
    applyShutdown true CoordAction.closeRemote = true :=
  ⟨shutdown_edge_triggered_teardown.2.2.2.1 [] SendResult.cancelled true rfl,
   shutdown_edge_triggered_teardown.2.2.2.2.1 true "boom" rfl,
   shutdown_edge_triggered_teardown.2.2.1 true CoordAction.closeRemote rfl⟩
